import Mathlib

/-!
Verification of the Crystal ECS runtime against its specification.

The development shallowly embeds the core crates of the repository:

* `BlockVec` — the paged column from `crates/utils/src/block_vec.rs`;
* `ComponentsStorage` — the component registry from `crates/ecs/src/component.rs`;
* the entity bitmask table and `query_by_bitmask` from `crates/ecs/src/entity.rs`;
* the `World` façade (`register`, `add_entity`, `remove_entity`, entity id
  recycling) from `crates/ecs/src/world.rs`;
* the filtered-parameter path of the system dispatcher from
  `crates/ecs/src/system.rs` and the tuple zip iterator from
  `crates/ecs/src/query.rs`;
* the completion tokens from `crates/ecs/src/sync.rs`.

Machine integers (`usize`, the `u64` bitmask) are modelled as `Nat`; the claims
under study never exercise overflow.  A Rust `panic!` (including an
out-of-bounds slice index) is modelled by `Option`/`none` at the operation's
result.  Sequential executions are modelled; each operation is a function on
an explicit state.

`NUM_OF_COMPONETS_PER_PAGE` (sic) is 400 in `component.rs`; the world model is
instantiated at that page size while `BlockVec` itself stays generic in `N`,
exactly as the Rust `const N : usize` parameter.
-/

set_option maxRecDepth 4000

namespace Crystal

/-- Page size used by the world: `NUM_OF_COMPONETS_PER_PAGE = 400` in
`crates/ecs/src/component.rs`. -/
def PAGE : Nat := 400

/-- Bitmask of owned component types.  `consts.rs` is absent from `src/`;
Modelled from the spec: the bitmask is an unsigned integer of width `B`
(64 suggested), modelled as `Nat` (no claim exercises the width bound). -/
abbrev BitmaskType := Nat

/-- Paged column from `crates/utils/src/block_vec.rs`.

```
pub struct BlockVec<T, const N: usize> {
    number_of_items: usize,
    blocks: Vec<Vec<Option<T>>>
}
```
-/
structure BlockVec (T : Type) (N : Nat) where
  number_of_items : Nat
  blocks : List (List (Option T))
  deriving Repr, DecidableEq

namespace BlockVec

variable {T : Type} {N : Nat}

/-- `block_for_index`: `(index as f64 / N as f64).floor() as usize`, i.e.
integer division for the magnitudes in use. -/
def block_for_index (N index : Nat) : Nat := index / N

/-- `corrected_index`: `index - block_for_index(index) * N`. -/
def corrected_index (N index : Nat) : Nat := index - block_for_index N index * N

/-- `append_empty_blocks`: push `num_of_blocks` fresh blocks of `N` empty
cells. -/
def append_empty_blocks (bv : BlockVec T N) (num_of_blocks : Nat) : BlockVec T N :=
  { bv with blocks := bv.blocks ++ List.replicate num_of_blocks (List.replicate N none) }

/-- `BlockVec::new()`: zero items, then one appended empty block. -/
def new : BlockVec T N :=
  append_empty_blocks { number_of_items := 0, blocks := [] } 1

/-- Write `blocks[bi][off] := v`; out-of-range writes (unreachable from the
source's call sites, where growth has just ensured `bi` is in range) leave the
table unchanged. -/
def setSlot (blocks : List (List (Option T))) (bi off : Nat) (v : Option T) :
    List (List (Option T)) :=
  match blocks[bi]? with
  | none => blocks
  | some b => blocks.set bi (b.set off v)

/-- `BlockVec::set(item, index)`: grow by `block_index` blocks when
`block_index > blocks.len() - 1`, then store `Some(item)` at the slot. -/
def set (bv : BlockVec T N) (item : T) (index : Nat) : BlockVec T N :=
  let block_index := block_for_index N index
  let bv1 := if block_index > bv.blocks.length - 1
    then bv.append_empty_blocks block_index else bv
  { bv1 with blocks := setSlot bv1.blocks block_index (corrected_index N index) (some item) }

/-- `BlockVec::get(index)`.  The outer `Option` layer records panics: the
source guard is `block_index > self.blocks_len()`, so when
`block_index == blocks_len` the read `self.blocks[block_index]` indexes out of
bounds and panics (`none` here); `some none` is the in-range empty slot and
the guarded out-of-range read `&None`. -/
def get (bv : BlockVec T N) (index : Nat) : Option (Option T) :=
  let block_index := block_for_index N index
  if block_index > bv.blocks.length then some none
  else
    match bv.blocks[block_index]? with
    | none => none
    | some block =>
      match block[corrected_index N index]? with
      | none => none
      | some slot => some slot

/-- `BlockVec::len()`: returns `number_of_items`. -/
def len (bv : BlockVec T N) : Nat := bv.number_of_items

/-- `BlockVec::blocks_len()`: the allocated page count. -/
def blocks_len (bv : BlockVec T N) : Nat := bv.blocks.length

/-- Modelled from the spec: the `BlockVec` iteration used by
`crates/ecs/src/entity.rs` (absent from `src/`, which holds an older
iteration without `actual_len`) exposes the scan bound of
`query_by_bitmask`.  Per the source comment there the scan walks "all the
entire vec", i.e. every allocated slot: `blocks_len * N`. -/
def actual_len (bv : BlockVec T N) : Nat := bv.blocks.length * N

/-- Modelled from the spec: `get_in_bounds(i)` (spelled `get_inbouds` at the
call sites in `component.rs`, absent from the `BlockVec` iteration in `src/`)
"fails if out of allocated range", otherwise returns the slot. -/
def get_inbouds (bv : BlockVec T N) (index : Nat) : Except Unit (Option T) :=
  if block_for_index N index < bv.blocks.length then
    Except.ok ((bv.blocks.getD (block_for_index N index) []).getD (corrected_index N index) none)
  else Except.error ()

/-- Modelled from the spec: in the `BlockVec` iteration used by
`component.rs`, `set` "returns whether growth occurred"; growth is observable
as a change of the allocated page count. -/
def setGrew (bv : BlockVec T N) (item : T) (index : Nat) : BlockVec T N × Bool :=
  let bv' := bv.set item index
  (bv', bv'.blocks.length != bv.blocks.length)

/-- Operations a client can perform on a `BlockVec` after `new()`
(`set` and `append_empty_blocks`, per claim C10). -/
inductive Op (T : Type) where
  | setOp (item : T) (index : Nat)
  | appendOp (n : Nat)

/-- Apply one `Op`. -/
def applyOp (bv : BlockVec T N) : Op T → BlockVec T N
  | .setOp item index => bv.set item index
  | .appendOp n => bv.append_empty_blocks n

/-- Apply a sequence of `Op`s from left to right. -/
def applyOps (bv : BlockVec T N) (ops : List (Op T)) : BlockVec T N :=
  ops.foldl applyOp bv

end BlockVec

/-- Runtime type identity (`std::any::TypeId`), modelled as `Nat`. -/
abbrev TypeId := Nat

/-- Component payload.  No claim inspects stored component values, so a single
value type suffices; `Nat` stands for the user's component data. -/
abbrev Val := Nat

/-- Association-list lookup mirroring `FxHashMap::get`. -/
def lookupA {α : Type} (k : Nat) : List (Nat × α) → Option α
  | [] => none
  | (k', v) :: rest => if k' = k then some v else lookupA k rest

/-- Association-list insert mirroring `FxHashMap::insert` (overwrite on
duplicate key). -/
def insertA {α : Type} (k : Nat) (v : α) : List (Nat × α) → List (Nat × α)
  | [] => [(k, v)]
  | (k', v') :: rest => if k' = k then (k, v) :: rest else (k', v') :: insertA k v rest

/-- Association-list in-place update of an existing key's value. -/
def updateA {α : Type} (k : Nat) (f : α → α) : List (Nat × α) → List (Nat × α)
  | [] => []
  | (k', v') :: rest => if k' = k then (k', f v') :: rest else (k', v') :: updateA k f rest

/-- Short-circuiting traversal (the shape of the source's per-item loops: a
panic aborts the whole operation). -/
def mapMOpt {A B : Type} (f : A → Option B) : List A → Option (List B)
  | [] => some []
  | x :: xs =>
    match f x with
    | none => none
    | some y =>
      match mapMOpt f xs with
      | none => none
      | some ys => some (y :: ys)

/-- `EntitiesStorage::query_by_bitmask` (`crates/ecs/src/entity.rs`): scan
`0..actual_len`; where the slot holds a mask `m`, include the index iff
`m & bitmasks == bitmasks`.  (Within the scan range `get` cannot hit its
out-of-bounds panic, so the panic layer collapses to "skip".) -/
def query_by_bitmask {N : Nat} (es : BlockVec BitmaskType N) (bitmasks : BitmaskType) :
    List Nat :=
  (List.range es.actual_len).filter fun i =>
    match es.get i with
    | some (some m) => Nat.land m bitmasks == bitmasks
    | _ => false

/-- `ComponentsStorage` (`crates/ecs/src/component.rs`): the registry mapping
type id to its paged column and to its bitmask shift.  Columns hold outer
cells (`Option` = installed or not) whose inner content (`Option Val`) can be
cleared by `remove_components` while the outer cell stays. -/
structure ComponentsStorage where
  components : List (TypeId × BlockVec (Option Val) PAGE)
  bitmasks : List (TypeId × Nat)
  deriving Repr, DecidableEq

namespace ComponentsStorage

/-- Fresh empty registry (`ComponentsStorage::default`). -/
def empty : ComponentsStorage := { components := [], bitmasks := [] }

/-- The `biggest` loop of `sync_buffers`: largest allocated page count over
all registered columns, starting at 0. -/
def biggest (cs : ComponentsStorage) : Nat :=
  cs.components.foldl
    (fun acc p => if acc < p.2.blocks_len then p.2.blocks_len else acc) 0

/-- `ComponentsStorage::sync_buffers`: pad every registered column with empty
pages up to the biggest page count. -/
def sync_buffers (cs : ComponentsStorage) : ComponentsStorage :=
  let b := cs.biggest
  { cs with components :=
      cs.components.map fun p => (p.1, p.2.append_empty_blocks (b - p.2.blocks_len)) }

/-- `ComponentsStorage::register(c0, bitmask_shift)`: insert an empty column
and the shift, then synchronize page counts. -/
def register (cs : ComponentsStorage) (c0 : TypeId) (bitmask_shift : Nat) :
    ComponentsStorage :=
  sync_buffers
    { components := insertA c0 BlockVec.new cs.components,
      bitmasks := insertA c0 bitmask_shift cs.bitmasks }

/-- `ComponentsStorage::bitmask(type_id)`: `0b1 << shift`; `none` models the
panic on an unregistered type. -/
def bitmask (cs : ComponentsStorage) (type_id : TypeId) : Option BitmaskType :=
  (lookupA type_id cs.bitmasks).map fun shift => Nat.shiftLeft 1 shift

/-- `ComponentsStorage::add_new_component`: install a fresh outer cell holding
the value; report whether the column grew. -/
def add_new_component (buffer : BlockVec (Option Val) PAGE) (e : Nat) (v : Val) :
    BlockVec (Option Val) PAGE × Bool :=
  buffer.setGrew (some v) e

/-- One component of `ComponentsStorage::add_component` / the per-type body
of `add_componentN`: look up the column (panic if unregistered), then either
replace the inner value of an existing cell in place, or install a fresh cell
(recording growth). -/
def add_component (cs : ComponentsStorage) (e : Nat) (tid : TypeId) (v : Val) :
    Option (ComponentsStorage × Bool) :=
  match lookupA tid cs.components with
  | none => none
  | some buffer =>
    let fresh := add_new_component buffer e v
    let install : ComponentsStorage × Bool :=
      ({ cs with components := updateA tid (fun _ => fresh.1) cs.components }, fresh.2)
    let replaceInner : BlockVec (Option Val) PAGE → BlockVec (Option Val) PAGE :=
      fun b =>
        let blocks' := BlockVec.setSlot b.blocks (BlockVec.block_for_index PAGE e)
          (BlockVec.corrected_index PAGE e) (some (some v))
        { b with blocks := blocks' }
    match buffer.get_inbouds e with
    | Except.ok (some _cell) =>
      some ({ cs with components := updateA tid replaceInner cs.components }, false)
    | Except.ok none => some install
    | Except.error _ => some install

/-- The per-type loop of `add_componentN`, folding the growth flags. -/
def addComponentsLoop (cs : ComponentsStorage) (e : Nat) :
    List (TypeId × Val) → Bool → Option (ComponentsStorage × Bool)
  | [], grew => some (cs, grew)
  | (tid, v) :: rest, grew =>
    match cs.add_component e tid v with
    | none => none
    | some (cs1, g) => cs1.addComponentsLoop e rest (grew || g)

/-- `ComponentBundler::add_components` (`crates/ecs/src/bundle.rs`): write
every component (syncing buffers once at the end if any column grew), then OR
together the per-type bitmasks. -/
def add_components (cs : ComponentsStorage) (e : Nat) (bundle : List (TypeId × Val)) :
    Option (ComponentsStorage × BitmaskType) :=
  match cs.addComponentsLoop e bundle false with
  | none => none
  | some (cs1, grew) =>
    let cs2 := if grew then cs1.sync_buffers else cs1
    match mapMOpt (fun p => cs2.bitmask p.1) bundle with
    | none => none
    | some masks => some (cs2, masks.foldl Nat.lor 0)

end ComponentsStorage

/-- The per-column body of `ComponentsStorage::remove_components`: read the
slot with `get` (outer `none` = index panic), and clear the inner value of an
installed cell. -/
def clearCell (buffer : BlockVec (Option Val) PAGE) (e : Nat) :
    Option (BlockVec (Option Val) PAGE) :=
  match buffer.get e with
  | none => none
  | some none => some buffer
  | some (some _) =>
    let blocks' := BlockVec.setSlot buffer.blocks (BlockVec.block_for_index PAGE e)
      (BlockVec.corrected_index PAGE e) (some none)
    some { buffer with blocks := blocks' }

/-- `ComponentsStorage::remove_components`: clear the entity's cell in every
registered column. -/
def ComponentsStorage.remove_components (cs : ComponentsStorage) (e : Nat) :
    Option ComponentsStorage :=
  (mapMOpt (fun p => (clearCell p.2 e).map fun b => (p.1, b)) cs.components).map
    fun comps => { cs with components := comps }

/-- `World` (`crates/ecs/src/world.rs`), at the default page size.  The
`SegQueue` of free entities is a FIFO: pop from the front, push at the back. -/
structure World where
  components_storage : ComponentsStorage
  entities_storage : BlockVec BitmaskType PAGE
  number_of_entities : Nat
  number_of_components : Nat
  free_entities : List Nat
  deriving Repr, DecidableEq

namespace World

/-- `DefaultWorld::default()`. -/
def defaultWorld : World where
  components_storage := ComponentsStorage.empty
  entities_storage := BlockVec.new
  number_of_entities := 0
  number_of_components := 0
  free_entities := []

/-- `World::generate_entity`: recycled id first, else fetch-and-increment of
`number_of_entities`. -/
def generate_entity (w : World) : Nat × World :=
  match w.free_entities with
  | e :: rest => (e, { w with free_entities := rest })
  | [] => (w.number_of_entities, { w with number_of_entities := w.number_of_entities + 1 })

/-- `World::register::<C0>()`: the bit shift is taken from the shared
`number_of_components` counter (fetch-and-increment), then the registry entry
is created. -/
def register (w : World) (tid : TypeId) : World :=
  let bm_shift := w.number_of_components
  { w with number_of_components := w.number_of_components + 1,
           components_storage := w.components_storage.register tid bm_shift }

/-- `World::add_entity(components)`: bump `number_of_components` by the bundle
length, acquire an id, install the bundle, and record the combined bitmask in
the entity table. -/
def add_entity (w : World) (bundle : List (TypeId × Val)) : Option (World × Nat) :=
  let w1 : World := { w with number_of_components := w.number_of_components + bundle.length }
  let p := w1.generate_entity
  match p.2.components_storage.add_components p.1 bundle with
  | none => none
  | some (cs', mask) =>
    some ({ p.2 with components_storage := cs',
                     entities_storage := p.2.entities_storage.set mask p.1 }, p.1)

/-- `World::remove_entity(entity)`: reset the bitmask to 0, clear the cells,
and push the id onto the free queue. -/
def remove_entity (w : World) (e : Nat) : Option World :=
  let es' := w.entities_storage.set 0 e
  match w.components_storage.remove_components e with
  | none => none
  | some cs' =>
    some { w with components_storage := cs', entities_storage := es',
                  free_entities := w.free_entities ++ [e] }

end World

/-- The `bitmasks |= components_handler.bitmask(t)` loop of the
`generate_system!` macro (`crates/ecs/src/system.rs`), over the filtered
(non-unique) parameters: OR of the parameters' bitmasks starting from `0x00`;
`none` models the panic on an unregistered type. -/
def systemFilterMask (cs : ComponentsStorage) (params : List TypeId) : Option BitmaskType :=
  (mapMOpt cs.bitmask params).map fun ms => ms.foldl Nat.lor 0

/-- The handle-construction loop of `generate_system!` for the filtered
parameters: for each parameter, look up its bitmask and its column (both
panic if missing) and build the handle's entity list by querying with the
combined filter mask. -/
def systemHandles (cs : ComponentsStorage) (es : BlockVec BitmaskType PAGE)
    (params : List TypeId) : Option (List (List Nat)) :=
  match systemFilterMask cs params with
  | none => none
  | some f =>
    mapMOpt (fun t =>
      match cs.bitmask t, lookupA t cs.components with
      | some _, some _ => some (query_by_bitmask es f)
      | _, _ => none) params

/-- Fuelled unfolding of the n-ary `TupleAccessIterator` loop
(`crates/ecs/src/query.rs`): a tuple is produced iff every component iterator
still yields; iteration stops at the first exhausted iterator. -/
def tupleCountFuel : Nat → List (List Nat) → Nat
  | 0, _ => 0
  | fuel+1, ls =>
    if ls.isEmpty then 0
    else if ls.any List.isEmpty then 0
    else tupleCountFuel fuel (ls.map List.tail) + 1

/-- Number of tuples yielded by zipping the given per-handle entity lists
(the fuel bound strictly dominates any possible number of iterations). -/
def tupleCount (ls : List (List Nat)) : Nat :=
  tupleCountFuel ((ls.map List.length).sum + 1) ls

/-- The poll step of `TaskWaitable::wait` (`crates/ecs/src/sync.rs`):
`did_finish = true; did_finish &= flag; …` over the tuple of token flags. -/
def pollAll (flags : List Bool) : Bool := flags.foldl (fun acc f => acc && f) true

/-- `TaskSync::mark_as_finish` on token `i` of a store of token flags:
`swap(true)` — the flag is set, never cleared. -/
def markAsFinish (store : List Bool) (i : Nat) : List Bool := store.set i true

/-- Apply a sequence of `mark_as_finish` signals. -/
def applyMarks (store : List Bool) (ops : List Nat) : List Bool :=
  ops.foldl markAsFinish store

/-- Index of the first polling iteration of `wait` that observes all flags
set, over the sequence of snapshots the polling loop reads (one per
iteration, separated by the 1 ms sleeps). -/
def waitFirstReturn (snaps : List (List Bool)) : Option Nat :=
  snaps.findIdx? pollAll

/-- The bundle's combined mask: the OR (`| 0x0` fold, as in
`crates/ecs/src/bundle.rs`) of the registered bitmasks of the bundle's
component types; `none` models the panic on an unregistered type. -/
def combinedMask (cs : ComponentsStorage) (bundle : List (TypeId × Val)) :
    Option BitmaskType :=
  (mapMOpt (fun p => cs.bitmask p.1) bundle).map fun masks => masks.foldl Nat.lor 0

/-- Page count of every registered column, keyed by type id (the observation
claim C4 is about). -/
def pagesOf (cs : ComponentsStorage) : List (TypeId × Nat) :=
  cs.components.map fun p => (p.1, p.2.blocks_len)

/-- Well-formedness of a paged column: at least one allocated page (true from
`new()` on) and every page of width `N`. -/
abbrev BlockVec.WF {T : Type} {N : Nat} (bv : BlockVec T N) : Prop :=
  0 < bv.blocks.length ∧ ∀ b ∈ bv.blocks, b.length = N

/-- Well-formedness of a world: the bitmask column and every registered
column are well-formed pages. -/
abbrev World.WFW (w : World) : Prop :=
  w.entities_storage.WF ∧ ∀ p ∈ w.components_storage.components, p.2.WF

/-- World states reachable from `DefaultWorld::default()` by the public
operations `register`, `add_entity` and `remove_entity` (an operation that
panics yields no state). -/
inductive Reachable : World → Prop where
  | base : Reachable World.defaultWorld
  | registerStep (tid : TypeId) {w : World} :
      Reachable w → Reachable (w.register tid)
  | addStep {w : World} (bundle : List (TypeId × Val)) {w' : World} {e : Nat} :
      Reachable w → w.add_entity bundle = some (w', e) → Reachable w'
  | removeStep {w : World} (e : Nat) {w' : World} :
      Reachable w → w.remove_entity e = some w' → Reachable w'

end Crystal

namespace Crystal

/-- `number_of_items` is untouched by `set` and `append_empty_blocks`. -/
theorem applyOp_number_of_items {T : Type} {N : Nat} (bv : BlockVec T N) (op : BlockVec.Op T) :
    (bv.applyOp op).number_of_items = bv.number_of_items := by
  cases op with
  | setOp item index =>
    simp only [BlockVec.applyOp, BlockVec.set, BlockVec.append_empty_blocks]
    split <;> rfl
  | appendOp n => rfl

/-- C10: the logical element count of a paged column is never updated: for
every sequence of `set` / `append_empty_blocks` operations applied to a fresh
`BlockVec`, `len()` (the `number_of_items` field) still returns `0`. -/
theorem c10_len_always_zero {T : Type} {N : Nat} (ops : List (BlockVec.Op T)) :
    (BlockVec.applyOps (BlockVec.new (T := T) (N := N)) ops).len = 0 := by
  suffices h : ∀ (bv : BlockVec T N), (BlockVec.applyOps bv ops).len = bv.len by
    exact h BlockVec.new
  intro bv
  induction ops generalizing bv with
  | nil => rfl
  | cons op rest ih =>
    simpa [BlockVec.applyOps, BlockVec.len, applyOp_number_of_items bv op,
      BlockVec.len] using (ih (bv.applyOp op)).trans (applyOp_number_of_items bv op)

/-- C8: the claim (and the source's own doc comment "if it is a read it will
return None") demands that `get(i)` yield empty for every index at or beyond
the allocated page range, but the guard `block_index > self.blocks_len()`
lets `block_index == blocks_len` through to `self.blocks[block_index]`, which
panics.  Failing input: a fresh `BlockVec::<_, 400>::new()` (one allocated
block) read at index 400: `400 / 400 = 1 ≥ blocks_len = 1`, yet `get`
panics (`none` in the model) instead of returning empty. -/
theorem c8_get_boundary_panics :
    (BlockVec.new (T := Nat) (N := 400)).blocks.length ≤ 400 / 400 ∧
      (BlockVec.new (T := Nat) (N := 400)).get 400 = none := by
  constructor
  · decide
  · rfl

end Crystal

namespace Crystal

/-- The corrected (in-page) index is the remainder modulo the page size. -/
theorem corrected_index_eq_mod (N i : Nat) :
    BlockVec.corrected_index N i = i % N := by
  have h := Nat.mod_add_div i N
  have h2 : i / N * N = N * (i / N) := Nat.mul_comm _ _
  unfold BlockVec.corrected_index BlockVec.block_for_index
  omega

/-- Appending empty blocks adds exactly that many pages. -/
theorem append_blocks_length {T : Type} {N : Nat} (bv : BlockVec T N) (n : Nat) :
    (bv.append_empty_blocks n).blocks.length = bv.blocks.length + n := by
  simp [BlockVec.append_empty_blocks]

/-- Writing one slot does not change the page count. -/
theorem setSlot_length {T : Type} (blocks : List (List (Option T))) (bi off : Nat)
    (v : Option T) :
    (BlockVec.setSlot blocks bi off v).length = blocks.length := by
  unfold BlockVec.setSlot
  cases blocks[bi]? <;> simp

/-- Writing one slot keeps every page at width `N`. -/
theorem setSlot_mem_length {T : Type} {N : Nat} {blocks : List (List (Option T))}
    (h : ∀ b ∈ blocks, b.length = N) (bi off : Nat) (v : Option T) :
    ∀ b ∈ BlockVec.setSlot blocks bi off v, b.length = N := by
  intro b hb
  unfold BlockVec.setSlot at hb
  cases hx : blocks[bi]? with
  | none => rw [hx] at hb; exact h b hb
  | some blk =>
    rw [hx] at hb
    rcases List.mem_or_eq_of_mem_set hb with h1 | h2
    · exact h b h1
    · subst h2
      rw [List.length_set]
      exact h blk (List.getElem?_mem hx)

/-- A fresh column is well-formed. -/
theorem WF_new {T : Type} {N : Nat} : (BlockVec.new (T := T) (N := N)).WF := by
  constructor
  · simp [BlockVec.new, BlockVec.append_empty_blocks]
  · intro b hb
    simp [BlockVec.new, BlockVec.append_empty_blocks] at hb
    simp [hb]

/-- Appending empty pages preserves well-formedness. -/
theorem WF_append {T : Type} {N : Nat} {bv : BlockVec T N} (h : bv.WF) (n : Nat) :
    (bv.append_empty_blocks n).WF := by
  obtain ⟨h1, h2⟩ := h
  constructor
  · rw [append_blocks_length]; omega
  · intro b hb
    simp only [BlockVec.append_empty_blocks, List.mem_append] at hb
    rcases hb with hb | hb
    · exact h2 b hb
    · rcases List.eq_of_mem_replicate hb with rfl
      simp

/-- `set` preserves well-formedness. -/
theorem WF_set {T : Type} {N : Nat} {bv : BlockVec T N} (h : bv.WF) (item : T) (i : Nat) :
    (bv.set item i).WF := by
  unfold BlockVec.set
  by_cases hc : BlockVec.block_for_index N i > bv.blocks.length - 1
  · have h' := WF_append h (BlockVec.block_for_index N i)
    refine ⟨?_, ?_⟩
    · simp only [hc, if_true, setSlot_length]
      exact h'.1
    · simp only [hc, if_true]
      exact setSlot_mem_length h'.2 _ _ _
  · refine ⟨?_, ?_⟩
    · simp only [hc, if_false, setSlot_length]
      exact h.1
    · simp only [hc, if_false]
      exact setSlot_mem_length h.2 _ _ _

/-- After the conditional growth inside `set`, the target page exists and has
width `N`. -/
theorem set_target_block {T : Type} {N : Nat} {bv : BlockVec T N} (hwf : bv.WF) (i : Nat) :
    ∃ b, (if BlockVec.block_for_index N i > bv.blocks.length - 1
        then bv.append_empty_blocks (BlockVec.block_for_index N i)
        else bv).blocks[BlockVec.block_for_index N i]? = some b ∧ b.length = N := by
  obtain ⟨hL, hblocks⟩ := hwf
  by_cases hc : BlockVec.block_for_index N i > bv.blocks.length - 1
  · rw [if_pos hc]
    refine ⟨List.replicate N none, ?_, by simp⟩
    have hge : bv.blocks.length ≤ BlockVec.block_for_index N i := by omega
    have hlt : BlockVec.block_for_index N i - bv.blocks.length
        < BlockVec.block_for_index N i := by omega
    simp only [BlockVec.append_empty_blocks]
    rw [List.getElem?_append_right hge, List.getElem?_replicate]
    simp [hlt]
  · rw [if_neg hc]
    have hlt : BlockVec.block_for_index N i < bv.blocks.length := by omega
    exact ⟨bv.blocks[BlockVec.block_for_index N i],
      List.getElem?_eq_getElem hlt, hblocks _ (List.getElem_mem hlt)⟩

/-- Unfolding equation for `set`. -/
theorem set_def {T : Type} {N : Nat} (bv : BlockVec T N) (item : T) (i : Nat) :
    (bv.set item i).blocks = BlockVec.setSlot
        (if BlockVec.block_for_index N i > bv.blocks.length - 1
          then bv.append_empty_blocks (BlockVec.block_for_index N i) else bv).blocks
        (BlockVec.block_for_index N i) (BlockVec.corrected_index N i) (some item) := rfl

/-- Characterization of `get` when the target page exists. -/
theorem get_eq_of_blocks {T : Type} {N : Nat} (bv : BlockVec T N) (i : Nat)
    {b : List (Option T)} (hb : bv.blocks[BlockVec.block_for_index N i]? = some b) :
    bv.get i = match b[BlockVec.corrected_index N i]? with
      | none => none
      | some slot => some slot := by
  have hbi : BlockVec.block_for_index N i < bv.blocks.length := by
    by_contra hcon
    rw [List.getElem?_eq_none (by omega)] at hb
    exact Option.noConfusion hb
  unfold BlockVec.get
  rw [if_neg (by omega), hb]

/-- Reading back the slot just written by `set` yields the item (never the
panic branch), on any well-formed column with a positive page width. -/
theorem get_set_self {T : Type} {N : Nat} (hN : 0 < N) {bv : BlockVec T N}
    (hwf : bv.WF) (item : T) (i : Nat) :
    (bv.set item i).get i = some (some item) := by
  obtain ⟨b, hb, hblen⟩ := set_target_block hwf i
  have hoff : BlockVec.corrected_index N i < N := by
    rw [corrected_index_eq_mod]
    exact Nat.mod_lt _ hN
  have hbi : BlockVec.block_for_index N i
      < (if BlockVec.block_for_index N i > bv.blocks.length - 1
          then bv.append_empty_blocks (BlockVec.block_for_index N i) else bv).blocks.length := by
    by_contra hcon
    rw [List.getElem?_eq_none (by omega)] at hb
    exact Option.noConfusion hb
  have hsets : (bv.set item i).blocks[BlockVec.block_for_index N i]?
      = some (b.set (BlockVec.corrected_index N i) (some item)) := by
    rw [set_def]
    unfold BlockVec.setSlot
    rw [hb]
    exact List.getElem?_set_eq_of_lt _ hbi
  rw [get_eq_of_blocks _ _ hsets]
  rw [List.getElem?_set_eq_of_lt _ (by omega)]

end Crystal

namespace Crystal

/-- Membership characterization of the bitmask scan. -/
theorem mem_query_by_bitmask {N : Nat} (es : BlockVec BitmaskType N) (F : BitmaskType)
    (i : Nat) :
    i ∈ query_by_bitmask es F ↔
      i < es.actual_len ∧ ∃ m, es.get i = some (some m) ∧ Nat.land m F = F := by
  unfold query_by_bitmask
  rw [List.mem_filter, List.mem_range]
  constructor
  · rintro ⟨hi, hp⟩
    refine ⟨hi, ?_⟩
    cases hx : es.get i with
    | none => simp [hx] at hp
    | some slot =>
      cases slot with
      | none => simp [hx] at hp
      | some m =>
        simp only [hx, beq_iff_eq] at hp
        exact ⟨m, rfl, hp⟩
  · rintro ⟨hi, m, hm, hland⟩
    refine ⟨hi, ?_⟩
    simp [hm, hland]

/-- The scan result is strictly ascending (a filtered `range`). -/
theorem query_by_bitmask_pairwise {N : Nat} (es : BlockVec BitmaskType N) (F : BitmaskType) :
    (query_by_bitmask es F).Pairwise (· < ·) :=
  List.Pairwise.sublist (List.filter_sublist _) (List.pairwise_lt_range _)

/-- C2: `query_by_bitmask(F)` returns exactly the indices in the scanned range
whose stored bitmask `M` satisfies `M & F == F`, and the returned list is
sorted in strictly ascending id order. -/
theorem c2_query_exact_and_sorted :
    ∀ (N : Nat) (es : BlockVec BitmaskType N) (F : BitmaskType),
      (∀ i, i ∈ query_by_bitmask es F ↔
        i < es.actual_len ∧ ∃ m, es.get i = some (some m) ∧ Nat.land m F = F) ∧
      (query_by_bitmask es F).Pairwise (· < ·) :=
  fun _ es F => ⟨fun i => mem_query_by_bitmask es F i, query_by_bitmask_pairwise es F⟩

/-- C3 is false: on the reachable world obtained by `register(A)`,
`add_entity((A,))` (which creates entity 0) and `remove_entity(0)`, no entity
is live, yet `query_by_bitmask(0)` returns `[0]` — the removed entity's slot
holds the written mask `0`, and `0 & 0 == 0` matches the empty filter. -/
theorem c3_counterexample_query0_returns_removed :
    (((World.defaultWorld.register 0).add_entity [(0, 7)]).bind
        (fun p => p.1.remove_entity 0)).map
      (fun w => query_by_bitmask w.entities_storage 0) = some [0] ∧
    some ([] : List Nat) ≠ some [0] := by
  exact ⟨by rfl, by decide⟩

/-- C3 amended: the empty filter matches every index whose bitmask cell has
been written — all live entities and also every removed entity's zeroed slot —
in ascending order; it is not restricted to live entities. -/
theorem c3_amended_query0_matches_written_slots :
    ∀ (N : Nat) (es : BlockVec BitmaskType N),
      (∀ i, i ∈ query_by_bitmask es 0 ↔
        i < es.actual_len ∧ ∃ m, es.get i = some (some m)) ∧
      (query_by_bitmask es 0).Pairwise (· < ·) := by
  intro N es
  refine ⟨fun i => ?_, query_by_bitmask_pairwise es 0⟩
  rw [mem_query_by_bitmask]
  constructor
  · rintro ⟨hi, m, hm, _⟩
    exact ⟨hi, m, hm⟩
  · rintro ⟨hi, m, hm⟩
    exact ⟨hi, m, hm, Nat.and_zero m⟩

/-- C1 is contradicted by the code: `World::register` draws the bit shift
from the shared `number_of_components` counter, which `add_entity` also
increments by the bundle length.  On the trace `register(A); add_entity((A,));
register(B)`, the second registration (k = 1) records shift 2, not bit
position 1 as the claim requires for arbitrary interleavings. -/
theorem c1_interleaved_add_shifts_bit_position :
    ((World.defaultWorld.register 0).add_entity [(0, 5)]).map
      (fun p => lookupA 1 (p.1.register 1).components_storage.bitmasks)
      = some (some 2) ∧
    some (some 2) ≠ some (some 1) := by
  exact ⟨by rfl, by decide⟩

/-- C6 is false: removing an entity id never issued (id 5 on a fresh world
with one registered component and no entities) is not a frame no-op — the id
is pushed onto the free queue (previously empty) and the bitmask column's
slot 5 changes from empty to an installed 0. -/
theorem c6_counterexample_remove_unknown_mutates :
    ((World.defaultWorld.register 0).remove_entity 5).map
        (fun w => (w.free_entities, w.entities_storage.get 5))
      = some ([5], some (some 0)) ∧
    (World.defaultWorld.register 0).free_entities = [] ∧
    (World.defaultWorld.register 0).entities_storage.get 5 = some none := by
  exact ⟨by rfl, by rfl, by rfl⟩

end Crystal

namespace Crystal

/-- The `biggest` accumulator dominates every column's page count and its
starting value. -/
theorem biggest_ge (l : List (TypeId × BlockVec (Option Val) PAGE)) (a : Nat) :
    (∀ p ∈ l, p.2.blocks_len
        ≤ l.foldl (fun acc p => if acc < p.2.blocks_len then p.2.blocks_len else acc) a) ∧
      a ≤ l.foldl (fun acc p => if acc < p.2.blocks_len then p.2.blocks_len else acc) a := by
  induction l generalizing a with
  | nil =>
    refine ⟨?_, Nat.le_refl a⟩
    intro p hp
    cases hp
  | cons x xs ih =>
    obtain ⟨ih1, ih2⟩ := ih (if a < x.2.blocks_len then x.2.blocks_len else a)
    refine ⟨?_, ?_⟩
    · intro p hp
      rcases List.mem_cons.mp hp with rfl | hp
      · exact Nat.le_trans (by split <;> omega) ih2
      · exact ih1 p hp
    · exact Nat.le_trans (by split <;> omega) ih2

/-- Every column of a registered store is bounded by `biggest`. -/
theorem le_biggest {cs : ComponentsStorage} :
    ∀ p ∈ cs.components, p.2.blocks_len ≤ cs.biggest :=
  (biggest_ge cs.components 0).1

/-- After `sync_buffers`, every registered column has exactly `biggest`
pages. -/
theorem sync_buffers_pages (cs : ComponentsStorage) :
    ∀ p ∈ cs.sync_buffers.components, p.2.blocks_len = cs.biggest := by
  intro p hp
  simp only [ComponentsStorage.sync_buffers, List.mem_map] at hp
  obtain ⟨q, hq, rfl⟩ := hp
  show (q.2.append_empty_blocks (cs.biggest - q.2.blocks_len)).blocks.length = _
  rw [append_blocks_length]
  have := le_biggest q hq
  unfold BlockVec.blocks_len at *
  omega

/-- Transport a uniform page count along an equality of page-count maps. -/
theorem allpages_of_pagesOf_eq {cs cs' : ComponentsStorage} {n : Nat}
    (h : pagesOf cs' = pagesOf cs)
    (ha : ∀ p ∈ cs.components, p.2.blocks_len = n) :
    ∀ p ∈ cs'.components, p.2.blocks_len = n := by
  intro p hp
  have hmem : (p.1, p.2.blocks_len) ∈ pagesOf cs' :=
    List.mem_map_of_mem _ hp
  rw [h] at hmem
  obtain ⟨q, hq, heq⟩ := List.mem_map.mp hmem
  have hq2 := ha q hq
  have := congrArg Prod.snd heq
  simp only at this
  omega

/-- `updateA` keeps the page-count map whenever the update preserves the
updated column's page count. -/
theorem pagesOf_updateA {f : BlockVec (Option Val) PAGE → BlockVec (Option Val) PAGE}
    (tid : TypeId) (l : List (TypeId × BlockVec (Option Val) PAGE))
    (hf : ∀ b, lookupA tid l = some b → (f b).blocks_len = b.blocks_len) :
    (updateA tid f l).map (fun p => (p.1, p.2.blocks_len))
      = l.map fun p => (p.1, p.2.blocks_len) := by
  induction l with
  | nil => rfl
  | cons x xs ih =>
    obtain ⟨k', v'⟩ := x
    by_cases hk : k' = tid
    · subst hk
      have hv : lookupA k' ((k', v') :: xs) = some v' := by
        unfold lookupA
        simp
      have hupd : updateA k' f ((k', v') :: xs) = (k', f v') :: xs := by
        unfold updateA
        rw [if_pos rfl]
      rw [hupd]
      simp only [List.map_cons]
      rw [hf v' hv]
    · simp only [updateA, if_neg hk, List.map_cons]
      rw [ih]
      intro b hb
      refine hf b ?_
      unfold lookupA
      simp [hk, hb]

/-- A non-growing `add_component` leaves every column's page count
unchanged. -/
theorem add_component_pages {cs cs' : ComponentsStorage} {e : Nat} {tid : TypeId} {v : Val}
    (h : cs.add_component e tid v = some (cs', false)) :
    pagesOf cs' = pagesOf cs := by
  unfold ComponentsStorage.add_component at h
  cases hlook : lookupA tid cs.components with
  | none => rw [hlook] at h; exact Option.noConfusion h
  | some buffer =>
    rw [hlook] at h
    simp only at h
    cases hget : buffer.get_inbouds e with
    | ok slot =>
      rw [hget] at h
      cases slot with
      | some _cell =>
        simp only [Option.some.injEq, Prod.mk.injEq] at h
        obtain ⟨hcs, -⟩ := h
        subst hcs
        unfold pagesOf
        refine pagesOf_updateA tid cs.components ?_
        intro b hb
        rw [hlook] at hb
        cases hb
        show (BlockVec.setSlot buffer.blocks _ _ _).length = _
        exact setSlot_length _ _ _ _
      | none =>
        simp only [Option.some.injEq, Prod.mk.injEq] at h
        obtain ⟨hcs, hflag⟩ := h
        subst hcs
        unfold pagesOf
        refine pagesOf_updateA tid cs.components ?_
        intro b hb
        rw [hlook] at hb
        cases hb
        have : (buffer.set (some v) e).blocks.length = buffer.blocks.length := by
          have := hflag
          unfold ComponentsStorage.add_new_component BlockVec.setGrew at this
          simpa using this
        simpa [ComponentsStorage.add_new_component, BlockVec.setGrew,
          BlockVec.blocks_len] using this
    | error u =>
      rw [hget] at h
      simp only [Option.some.injEq, Prod.mk.injEq] at h
      obtain ⟨hcs, hflag⟩ := h
      subst hcs
      unfold pagesOf
      refine pagesOf_updateA tid cs.components ?_
      intro b hb
      rw [hlook] at hb
      cases hb
      have : (buffer.set (some v) e).blocks.length = buffer.blocks.length := by
        have := hflag
        unfold ComponentsStorage.add_new_component BlockVec.setGrew at this
        simpa using this
      simpa [ComponentsStorage.add_new_component, BlockVec.setGrew,
        BlockVec.blocks_len] using this

/-- The growth flag of the component loop is monotone. -/
theorem addComponentsLoop_flag_mono {e : Nat} :
    ∀ (bundle : List (TypeId × Val)) (cs cs' : ComponentsStorage) (grew' : Bool),
      cs.addComponentsLoop e bundle true = some (cs', grew') → grew' = true := by
  intro bundle
  induction bundle with
  | nil =>
    intro cs cs' grew' h
    simp only [ComponentsStorage.addComponentsLoop, Option.some.injEq, Prod.mk.injEq] at h
    exact h.2.symm
  | cons x rest ih =>
    intro cs cs' grew' h
    obtain ⟨tid, v⟩ := x
    simp only [ComponentsStorage.addComponentsLoop] at h
    cases hadd : cs.add_component e tid v with
    | none => rw [hadd] at h; exact Option.noConfusion h
    | some p =>
      rw [hadd] at h
      exact ih p.1 cs' grew' (by simpa using h)

/-- A loop that reports no growth leaves the page-count map unchanged. -/
theorem addComponentsLoop_pages {e : Nat} :
    ∀ (bundle : List (TypeId × Val)) (cs cs' : ComponentsStorage),
      cs.addComponentsLoop e bundle false = some (cs', false) →
      pagesOf cs' = pagesOf cs := by
  intro bundle
  induction bundle with
  | nil =>
    intro cs cs' h
    simp only [ComponentsStorage.addComponentsLoop, Option.some.injEq, Prod.mk.injEq] at h
    rw [h.1]
  | cons x rest ih =>
    intro cs cs' h
    obtain ⟨tid, v⟩ := x
    simp only [ComponentsStorage.addComponentsLoop] at h
    cases hadd : cs.add_component e tid v with
    | none => rw [hadd] at h; exact Option.noConfusion h
    | some p =>
      rw [hadd] at h
      simp only at h
      cases hg : p.2 with
      | true =>
        rw [hg] at h
        have := addComponentsLoop_flag_mono rest p.1 cs' false (by simpa using h)
        exact Bool.noConfusion this
      | false =>
        rw [hg] at h
        simp only [Bool.or_false] at h
        have h1 : pagesOf cs' = pagesOf p.1 := ih p.1 cs' h
        have h2 : pagesOf p.1 = pagesOf cs :=
          add_component_pages (show cs.add_component e tid v = some (p.1, false) by
            rw [hadd, ← hg])
        rw [h1, h2]

/-- Clearing a cell never changes the page count. -/
theorem clearCell_blocks_len {e : Nat} {buffer b : BlockVec (Option Val) PAGE}
    (hclear : clearCell buffer e = some b) :
    b.blocks.length = buffer.blocks.length := by
  unfold clearCell at hclear
  cases hget : buffer.get e with
  | none => rw [hget] at hclear; exact Option.noConfusion hclear
  | some slot =>
    rw [hget] at hclear
    cases slot with
    | none =>
      simp only [Option.some.injEq] at hclear
      rw [← hclear]
    | some _ =>
      simp only [Option.some.injEq] at hclear
      rw [← hclear]
      exact setSlot_length _ _ _ _

/-- The column walk of `remove_components` preserves the page-count map. -/
theorem mapM_clearCell_pages {e : Nat} :
    ∀ (l : List (TypeId × BlockVec (Option Val) PAGE))
      (comps : List (TypeId × BlockVec (Option Val) PAGE)),
      mapMOpt (fun p => (clearCell p.2 e).map fun b => (p.1, b)) l = some comps →
      comps.map (fun p => (p.1, p.2.blocks_len)) = l.map fun p => (p.1, p.2.blocks_len) := by
  intro l
  induction l with
  | nil =>
    intro comps hmap
    simp only [mapMOpt, Option.some.injEq] at hmap
    subst hmap
    rfl
  | cons x xs ih =>
    intro comps hmap
    simp only [mapMOpt] at hmap
    cases hclear : clearCell x.2 e with
    | none => rw [hclear] at hmap; simp at hmap
    | some b =>
      rw [hclear] at hmap
      cases hrest : mapMOpt (fun p => (clearCell p.2 e).map fun b => (p.1, b)) xs with
      | none => rw [hrest] at hmap; simp at hmap
      | some comps' =>
        rw [hrest] at hmap
        simp only [Option.map_some', Option.some.injEq] at hmap
        subst hmap
        simp only [List.map_cons]
        rw [ih comps' hrest]
        unfold BlockVec.blocks_len
        rw [clearCell_blocks_len hclear]

/-- `remove_components` leaves every column's page count unchanged. -/
theorem remove_components_pages {e : Nat} {cs cs' : ComponentsStorage}
    (h : cs.remove_components e = some cs') :
    pagesOf cs' = pagesOf cs := by
  unfold ComponentsStorage.remove_components at h
  cases hmap : mapMOpt (fun p => (clearCell p.2 e).map fun b => (p.1, b)) cs.components with
  | none => rw [hmap] at h; exact Option.noConfusion h
  | some comps =>
    rw [hmap] at h
    have h' : ({ cs with components := comps } : ComponentsStorage) = cs' := by
      simpa using h
    subst h'
    show comps.map (fun p => (p.1, p.2.blocks_len)) = _
    exact mapM_clearCell_pages cs.components comps hmap

/-- `generate_entity` does not touch the component storage. -/
theorem generate_entity_components (w : World) :
    (w.generate_entity).2.components_storage = w.components_storage := by
  unfold World.generate_entity
  cases w.free_entities <;> rfl

/-- Every reachable world has a uniform page count over its registered
columns. -/
theorem reachable_allpages {w : World} (hw : Reachable w) :
    ∃ n, ∀ p ∈ w.components_storage.components, p.2.blocks_len = n := by
  induction hw with
  | base => exact ⟨0, by intro p hp; cases hp⟩
  | registerStep tid hr ih =>
    exact ⟨_, sync_buffers_pages _⟩
  | addStep bundle hr hadd ih =>
    rename_i w₀ w' e
    unfold World.add_entity at hadd
    simp only at hadd
    set w1 : World := { w₀ with number_of_components := w₀.number_of_components + bundle.length } with hw1
    set p := w1.generate_entity with hp
    cases hac : p.2.components_storage.add_components p.1 bundle with
    | none => rw [hac] at hadd; exact Option.noConfusion hadd
    | some q =>
      rw [hac] at hadd
      simp only [Option.some.injEq, Prod.mk.injEq] at hadd
      obtain ⟨hw', -⟩ := hadd
      have hcw : w'.components_storage = q.1 := by rw [← hw']
      unfold ComponentsStorage.add_components at hac
      cases hloop : p.2.components_storage.addComponentsLoop p.1 bundle false with
      | none => rw [hloop] at hac; exact Option.noConfusion hac
      | some r =>
        rw [hloop] at hac
        simp only at hac
        cases hmask : mapMOpt (fun x =>
            (if r.2 then r.1.sync_buffers else r.1).bitmask x.1) bundle with
        | none => rw [hmask] at hac; exact Option.noConfusion hac
        | some masks =>
          rw [hmask] at hac
          simp only [Option.some.injEq] at hac
          have hq1 : q.1 = if r.2 then r.1.sync_buffers else r.1 := by
            rw [← hac]
          cases hg : r.2 with
          | true =>
            rw [hg, if_pos rfl] at hq1
            refine ⟨r.1.biggest, ?_⟩
            rw [hcw, hq1]
            exact sync_buffers_pages r.1
          | false =>
            rw [hg, if_neg Bool.false_ne_true] at hq1
            obtain ⟨n, hn⟩ := ih
            refine ⟨n, ?_⟩
            rw [hcw, hq1]
            have hpages : pagesOf r.1 = pagesOf p.2.components_storage :=
              addComponentsLoop_pages bundle p.2.components_storage r.1
                (show p.2.components_storage.addComponentsLoop p.1 bundle false
                    = some (r.1, false) by rw [hloop, ← hg])
            refine allpages_of_pagesOf_eq hpages ?_
            rw [hp, generate_entity_components]
            exact hn
  | removeStep e hr hrem ih =>
    rename_i w₀ w'
    unfold World.remove_entity at hrem
    simp only at hrem
    cases hrc : w₀.components_storage.remove_components e with
    | none => rw [hrc] at hrem; exact Option.noConfusion hrem
    | some cs' =>
      rw [hrc] at hrem
      simp only [Option.some.injEq] at hrem
      obtain ⟨n, hn⟩ := ih
      refine ⟨n, ?_⟩
      rw [← hrem]
      simp only
      exact allpages_of_pagesOf_eq (remove_components_pages hrc) hn

/-- C4: after every `register`, `add_entity` or `remove_entity` operation
(i.e. in every reachable world state), all registered component columns have
the same number of allocated pages. -/
theorem c4_page_counts_equal (w : World) (hw : Reachable w) :
    ∀ p ∈ w.components_storage.components, ∀ q ∈ w.components_storage.components,
      p.2.blocks_len = q.2.blocks_len := by
  intro p hp q hq
  obtain ⟨n, hn⟩ := reachable_allpages hw
  rw [hn p hp, hn q hq]

/-- Witness for C4: a concrete reachable world with two registered columns,
both of which indeed have the same page count. -/
theorem c4_page_counts_equal_witness :
    (0, (BlockVec.new : BlockVec (Option Val) PAGE))
        ∈ ((World.defaultWorld.register 0).register 1).components_storage.components ∧
      (1, (BlockVec.new : BlockVec (Option Val) PAGE))
        ∈ ((World.defaultWorld.register 0).register 1).components_storage.components ∧
      (0, (BlockVec.new : BlockVec (Option Val) PAGE)).2.blocks_len
        = (1, (BlockVec.new : BlockVec (Option Val) PAGE)).2.blocks_len :=
  ⟨by decide, by decide,
    c4_page_counts_equal _
      (Reachable.registerStep 1 (Reachable.registerStep 0 Reachable.base))
      _ (by decide) _ (by decide)⟩

end Crystal

namespace Crystal

/-- Traversals of equal functions agree. -/
theorem mapMOpt_congr {A B : Type} (f g : A → Option B) :
    ∀ l, (∀ x ∈ l, f x = g x) → mapMOpt f l = mapMOpt g l := by
  intro l
  induction l with
  | nil => intro _; rfl
  | cons x xs ih =>
    intro hfg
    simp only [mapMOpt]
    rw [hfg x (List.mem_cons_self x xs), ih fun y hy => hfg y (List.mem_cons_of_mem x hy)]

/-- A traversal whose steps all succeed succeeds. -/
theorem mapMOpt_eq_some_of_forall {A B : Type} (f : A → Option B) :
    ∀ l, (∀ x ∈ l, (f x).isSome) → ∃ ys, mapMOpt f l = some ys := by
  intro l
  induction l with
  | nil => intro _; exact ⟨[], rfl⟩
  | cons x xs ih =>
    intro hall
    obtain ⟨y, hy⟩ := Option.isSome_iff_exists.mp (hall x (List.mem_cons_self x xs))
    obtain ⟨ys, hys⟩ := ih fun z hz => hall z (List.mem_cons_of_mem x hz)
    refine ⟨y :: ys, ?_⟩
    simp only [mapMOpt]
    rw [hy, hys]

/-- `add_component` never touches the bitmask registry. -/
theorem add_component_bitmasks {cs : ComponentsStorage} {e : Nat} {tid : TypeId} {v : Val}
    {p : ComponentsStorage × Bool} (h : cs.add_component e tid v = some p) :
    p.1.bitmasks = cs.bitmasks := by
  unfold ComponentsStorage.add_component at h
  cases hlook : lookupA tid cs.components with
  | none => rw [hlook] at h; exact Option.noConfusion h
  | some buffer =>
    rw [hlook] at h
    simp only at h
    cases hget : buffer.get_inbouds e with
    | ok slot =>
      rw [hget] at h
      cases slot with
      | some c =>
        simp only [Option.some.injEq] at h
        rw [← h]
      | none =>
        simp only [Option.some.injEq] at h
        rw [← h]
    | error u =>
      rw [hget] at h
      simp only [Option.some.injEq] at h
      rw [← h]

/-- The component loop never touches the bitmask registry. -/
theorem addComponentsLoop_bitmasks {e : Nat} :
    ∀ (bundle : List (TypeId × Val)) (cs : ComponentsStorage) (grew : Bool)
      (r : ComponentsStorage × Bool),
      cs.addComponentsLoop e bundle grew = some r → r.1.bitmasks = cs.bitmasks := by
  intro bundle
  induction bundle with
  | nil =>
    intro cs grew r h
    simp only [ComponentsStorage.addComponentsLoop, Option.some.injEq] at h
    rw [← h]
  | cons x rest ih =>
    intro cs grew r h
    obtain ⟨tid, v⟩ := x
    simp only [ComponentsStorage.addComponentsLoop] at h
    cases hadd : cs.add_component e tid v with
    | none => rw [hadd] at h; exact Option.noConfusion h
    | some p =>
      rw [hadd] at h
      have h1 := ih p.1 (grew || p.2) r (by simpa using h)
      rw [h1, add_component_bitmasks hadd]

/-- `sync_buffers` never touches the bitmask registry. -/
theorem sync_buffers_bitmasks (cs : ComponentsStorage) :
    cs.sync_buffers.bitmasks = cs.bitmasks := rfl

/-- A successful `add_components` returns exactly the bundle's combined mask
and leaves the bitmask registry unchanged. -/
theorem add_components_mask {cs cs2 : ComponentsStorage} {e : Nat}
    {bundle : List (TypeId × Val)} {mask : BitmaskType}
    (h : cs.add_components e bundle = some (cs2, mask)) :
    combinedMask cs bundle = some mask ∧ cs2.bitmasks = cs.bitmasks := by
  unfold ComponentsStorage.add_components at h
  cases hloop : cs.addComponentsLoop e bundle false with
  | none => rw [hloop] at h; exact Option.noConfusion h
  | some r =>
    rw [hloop] at h
    simp only at h
    have hbm : r.1.bitmasks = cs.bitmasks := addComponentsLoop_bitmasks bundle cs false r hloop
    have hbm2 : (if r.2 then r.1.sync_buffers else r.1).bitmasks = cs.bitmasks := by
      cases r.2
      · simpa using hbm
      · simpa [sync_buffers_bitmasks] using hbm
    cases hmask : mapMOpt (fun p => (if r.2 then r.1.sync_buffers else r.1).bitmask p.1)
        bundle with
    | none => rw [hmask] at h; exact Option.noConfusion h
    | some masks =>
      rw [hmask] at h
      simp only [Option.some.injEq, Prod.mk.injEq] at h
      obtain ⟨hcs2, hm⟩ := h
      constructor
      · unfold combinedMask
        have heq : mapMOpt (fun p => cs.bitmask p.1) bundle = some masks := by
          rw [← hmask]
          refine mapMOpt_congr _ _ bundle ?_
          intro x hx
          unfold ComponentsStorage.bitmask
          rw [hbm2]
        rw [heq]
        simp [hm]
      · rw [← hcs2, hbm2]

/-- `generate_entity` does not touch the entity table. -/
theorem generate_entity_es (w : World) :
    (w.generate_entity).2.entities_storage = w.entities_storage := by
  unfold World.generate_entity
  cases w.free_entities <;> rfl

/-- A successful `add_entity` writes some mask at the returned id in the
entity table and leaves its other effects to the counters and free queue. -/
theorem add_entity_es {w w' : World} {bundle : List (TypeId × Val)} {e' : Nat}
    (h : w.add_entity bundle = some (w', e')) :
    ∃ mask, w'.entities_storage = w.entities_storage.set mask e' := by
  unfold World.add_entity at h
  simp only at h
  cases hac : ({ w with number_of_components := w.number_of_components + bundle.length }
      : World).generate_entity.2.components_storage.add_components
      ({ w with number_of_components := w.number_of_components + bundle.length }
        : World).generate_entity.1 bundle with
  | none => rw [hac] at h; exact Option.noConfusion h
  | some q =>
    rw [hac] at h
    simp only [Option.some.injEq, Prod.mk.injEq] at h
    obtain ⟨hw', he'⟩ := h
    refine ⟨q.2, ?_⟩
    rw [← hw']
    show (({ w with number_of_components := _ } : World).generate_entity).2.entities_storage.set
        q.2 _ = _
    rw [generate_entity_es]
    rw [he']

/-- Frame conditions of a successful `remove_entity`. -/
theorem remove_entity_parts {w w' : World} {e : Nat} (h : w.remove_entity e = some w') :
    w'.free_entities = w.free_entities ++ [e] ∧
      w'.entities_storage = w.entities_storage.set 0 e ∧
      w'.number_of_entities = w.number_of_entities ∧
      w'.number_of_components = w.number_of_components ∧
      w.components_storage.remove_components e = some w'.components_storage := by
  unfold World.remove_entity at h
  cases hrc : w.components_storage.remove_components e with
  | none => rw [hrc] at h; exact Option.noConfusion h
  | some cs' =>
    rw [hrc] at h
    simp only [Option.some.injEq] at h
    rw [← h]
    exact ⟨rfl, rfl, rfl, rfl, rfl⟩

/-- The entity table of every reachable world is a well-formed paged
column. -/
theorem reachable_wf_es {w : World} (hw : Reachable w) : w.entities_storage.WF := by
  induction hw with
  | base => exact WF_new
  | registerStep tid hr ih => exact ih
  | addStep bundle hr hadd ih =>
    obtain ⟨mask, hes⟩ := add_entity_es hadd
    rw [hes]
    exact WF_set ih mask _
  | removeStep e hr hrem ih =>
    obtain ⟨-, hes, -⟩ := remove_entity_parts hrem
    rw [hes]
    exact WF_set ih 0 e

end Crystal


namespace Crystal

/-- `get` only panics when the index's page is exactly at the allocation
boundary: on a well-formed column, any other index reads some slot. -/
theorem get_isSome_of_ne {T : Type} {N : Nat} {bv : BlockVec T N} {i : Nat}
    (hN : 0 < N) (hwf : bv.WF)
    (hne : BlockVec.block_for_index N i ≠ bv.blocks.length) :
    ∃ slot, bv.get i = some slot := by
  unfold BlockVec.get
  by_cases hgt : BlockVec.block_for_index N i > bv.blocks.length
  · rw [if_pos hgt]
    exact ⟨none, rfl⟩
  · rw [if_neg hgt]
    have hlt : BlockVec.block_for_index N i < bv.blocks.length := by omega
    have hblen : bv.blocks[BlockVec.block_for_index N i].length = N :=
      hwf.2 _ (List.getElem_mem hlt)
    have hoff : BlockVec.corrected_index N i
        < bv.blocks[BlockVec.block_for_index N i].length := by
      rw [hblen, corrected_index_eq_mod]
      exact Nat.mod_lt _ hN
    rw [List.getElem?_eq_getElem hlt]
    show ∃ slot,
      (match bv.blocks[BlockVec.block_for_index N i][BlockVec.corrected_index N i]? with
        | none => none
        | some s => some s) = some slot
    rw [List.getElem?_eq_getElem hoff]
    exact ⟨_, rfl⟩

/-- `clearCell` succeeds whenever the target page is not exactly at the
allocation boundary. -/
theorem clearCell_isSome {buffer : BlockVec (Option Val) PAGE} {e : Nat}
    (hwf : buffer.WF)
    (hne : BlockVec.block_for_index PAGE e ≠ buffer.blocks.length) :
    (clearCell buffer e).isSome := by
  obtain ⟨slot, hslot⟩ := get_isSome_of_ne (by decide) hwf hne
  unfold clearCell
  rw [hslot]
  cases slot <;> rfl

/-- `remove_components` succeeds whenever no registered column has its
allocation boundary exactly at the target page. -/
theorem remove_components_some {cs : ComponentsStorage} {e : Nat}
    (hwfc : ∀ p ∈ cs.components, p.2.WF)
    (hne : ∀ p ∈ cs.components, BlockVec.block_for_index PAGE e ≠ p.2.blocks_len) :
    ∃ cs', cs.remove_components e = some cs' := by
  have hall : ∀ p ∈ cs.components,
      ((fun p => (clearCell p.2 e).map fun b => (p.1, b)) p).isSome := by
    intro p hp
    have h := clearCell_isSome (hwfc p hp) (hne p hp)
    cases hc : clearCell p.2 e with
    | none => rw [hc] at h; exact Bool.noConfusion h
    | some b => simp only [hc, Option.map_some']; rfl
  obtain ⟨ys, hys⟩ := mapMOpt_eq_some_of_forall
    (fun p => (clearCell p.2 e).map fun b => (p.1, b)) cs.components hall
  refine ⟨{ cs with components := ys }, ?_⟩
  unfold ComponentsStorage.remove_components
  rw [hys]
  rfl

/-- C6 amended: `remove_entity` on an unknown entity raises no failure
provided no registered column's allocated page count equals `id / PAGE`, but
it is not a frame no-op: it writes bitmask `0` at the id (growing the bitmask
column if needed), clears installed cells at the id (leaving every column's
page count unchanged), keeps both counters, and pushes the id onto the
free-id queue, making the unknown id issuable by a later `add_entity`. -/
theorem c6_amended_remove_unknown_behavior (w : World) (e : Nat)
    (hwfw : w.WFW)
    (hne : ∀ p ∈ w.components_storage.components,
      BlockVec.block_for_index PAGE e ≠ p.2.blocks_len) :
    ∃ w', w.remove_entity e = some w' ∧
      w'.free_entities = w.free_entities ++ [e] ∧
      w'.entities_storage = w.entities_storage.set 0 e ∧
      w'.number_of_entities = w.number_of_entities ∧
      w'.number_of_components = w.number_of_components ∧
      pagesOf w'.components_storage = pagesOf w.components_storage := by
  obtain ⟨cs', hcs'⟩ := remove_components_some hwfw.2 hne
  refine ⟨{ w with
      components_storage := cs',
      entities_storage := w.entities_storage.set 0 e,
      free_entities := w.free_entities ++ [e] },
    ?_, rfl, rfl, rfl, rfl, remove_components_pages hcs'⟩
  unfold World.remove_entity
  rw [hcs']

/-- Witness for the amended C6 at a concrete input: a fresh world with one
registered component, removing the never-issued id 5. -/
theorem c6_amended_remove_unknown_behavior_witness :
    (World.defaultWorld.register 0).WFW ∧
      (∀ p ∈ (World.defaultWorld.register 0).components_storage.components,
        BlockVec.block_for_index PAGE 5 ≠ p.2.blocks_len) ∧
      ∃ w', (World.defaultWorld.register 0).remove_entity 5 = some w' ∧
        w'.free_entities = (World.defaultWorld.register 0).free_entities ++ [5] ∧
        w'.entities_storage = (World.defaultWorld.register 0).entities_storage.set 0 5 ∧
        w'.number_of_entities = (World.defaultWorld.register 0).number_of_entities ∧
        w'.number_of_components = (World.defaultWorld.register 0).number_of_components ∧
        pagesOf w'.components_storage
          = pagesOf (World.defaultWorld.register 0).components_storage :=
  ⟨by decide, by decide,
    c6_amended_remove_unknown_behavior (World.defaultWorld.register 0) 5
      (by decide) (by decide)⟩

/-- `generate_entity` pops the head of a non-empty free queue. -/
theorem generate_entity_cons {w : World} {e : Nat} {rest : List Nat}
    (h : w.free_entities = e :: rest) :
    w.generate_entity = (e, { w with free_entities := rest }) := by
  unfold World.generate_entity
  rw [h]

/-- C7: with an empty free queue beforehand, `remove_entity(e)` immediately
followed by `add_entity(bundle)` returns an entity with the same id `e`
(`generate_entity` pops the just-pushed recycled id first), and the mask
stored at that id in the entity table is the bundle's combined bitmask. -/
theorem c7_recycled_id_round_trip (w : World) (e : Nat)
    (bundle : List (TypeId × Val)) (w1 w2 : World) (e' : Nat)
    (hw : Reachable w)
    (hfree : w.free_entities = [])
    (hrem : w.remove_entity e = some w1)
    (hadd : w1.add_entity bundle = some (w2, e')) :
    e' = e ∧ ∃ mask, combinedMask w1.components_storage bundle = some mask ∧
      w2.entities_storage.get e = some (some mask) := by
  obtain ⟨hf1, hes1, -, -, -⟩ := remove_entity_parts hrem
  have hfree1 : w1.free_entities = [e] := by
    rw [hf1, hfree]
    rfl
  have hwf1 : w1.entities_storage.WF := by
    rw [hes1]
    exact WF_set (reachable_wf_es hw) 0 e
  unfold World.add_entity at hadd
  simp only at hadd
  set w1b : World :=
    { w1 with number_of_components := w1.number_of_components + bundle.length } with hw1b
  set p := w1b.generate_entity with hp
  have hpe : p = (e, { w1b with free_entities := [] }) := by
    rw [hp, generate_entity_cons (w := w1b) hfree1]
  have h1 : p.1 = e := by rw [hpe]
  have h2 : p.2.components_storage = w1.components_storage := by rw [hpe]
  have h3 : p.2.entities_storage = w1.entities_storage := by rw [hpe]
  cases hac : p.2.components_storage.add_components p.1 bundle with
  | none => rw [hac] at hadd; exact Option.noConfusion hadd
  | some q =>
    rw [hac] at hadd
    simp only [Option.some.injEq, Prod.mk.injEq] at hadd
    obtain ⟨hw2, he'⟩ := hadd
    rw [h1, h2] at hac
    refine ⟨by rw [← he', h1], q.2, (add_components_mask hac).1, ?_⟩
    rw [← hw2]
    show (p.2.entities_storage.set q.2 p.1).get e = _
    rw [h1, h3]
    exact get_set_self (by decide) hwf1 q.2 e

/-- Witness for C7 at a concrete input: register one component, remove id 0
with the free queue empty, then add a one-component bundle. -/
theorem c7_recycled_id_round_trip_witness :
    ∃ w1 w2 e' mask, (World.defaultWorld.register 0).remove_entity 0 = some w1 ∧
      w1.add_entity [(0, 7)] = some (w2, e') ∧ e' = 0 ∧
      combinedMask w1.components_storage [(0, 7)] = some mask ∧
      w2.entities_storage.get 0 = some (some mask) := by
  have hsome : ((World.defaultWorld.register 0).remove_entity 0).isSome := by decide
  obtain ⟨w1, hrem⟩ := Option.isSome_iff_exists.mp hsome
  have hsome2 : (((World.defaultWorld.register 0).remove_entity 0).bind
      (fun u => u.add_entity [(0, 7)])).isSome := by decide
  rw [hrem] at hsome2
  simp only [Option.some_bind] at hsome2
  obtain ⟨pr, hadd⟩ := Option.isSome_iff_exists.mp hsome2
  obtain ⟨w2, e'⟩ := pr
  have hmain := c7_recycled_id_round_trip (World.defaultWorld.register 0) 0 [(0, 7)]
    w1 w2 e' (Reachable.registerStep 0 Reachable.base) rfl hrem hadd
  obtain ⟨he', mask, hm1, hm2⟩ := hmain
  rw [he'] at hadd
  exact ⟨w1, w2, 0, mask, hrem, hadd, rfl, hm1, hm2⟩

end Crystal

namespace Crystal

/-- Replicated cons lists contain no empty iterator. -/
theorem any_isEmpty_replicate_cons (n : Nat) (x : Nat) (xs : List Nat) :
    (List.replicate n (x :: xs)).any List.isEmpty = false := by
  induction n with
  | zero => rfl
  | succ m ih => simp [List.replicate_succ, ih]

/-- The fuelled tuple iterator, on `n` copies of the same entity list, yields
exactly the list's length (given enough fuel). -/
theorem tupleCountFuel_replicate (l : List Nat) :
    ∀ (fuel n : Nat), 0 < n → l.length < fuel →
      tupleCountFuel fuel (List.replicate n l) = l.length := by
  induction l with
  | nil =>
    intro fuel n hn hf
    match fuel, hf with
    | fuel + 1, _ =>
      cases n with
      | zero => omega
      | succ m =>
        simp [tupleCountFuel, List.replicate_succ]
  | cons x xs ih =>
    intro fuel n hn hf
    match fuel, hf with
    | fuel + 1, hf =>
      unfold tupleCountFuel
      cases n with
      | zero => omega
      | succ m =>
        rw [List.replicate_succ]
        have hne : ((x :: xs) :: List.replicate m (x :: xs)).isEmpty = false := rfl
        have hany : ((x :: xs) :: List.replicate m (x :: xs)).any List.isEmpty = false := by
          rw [← List.replicate_succ]
          exact any_isEmpty_replicate_cons (m + 1) x xs
        rw [hne, hany]
        simp only [Bool.false_eq_true, if_false]
        have hmap : ((x :: xs) :: List.replicate m (x :: xs)).map List.tail
            = List.replicate (m + 1) xs := by
          rw [← List.replicate_succ, List.map_replicate]
          rfl
        rw [hmap, ih fuel (m + 1) (Nat.succ_pos m) (by simpa using Nat.lt_of_succ_lt_succ hf)]
        rfl

/-- The tuple iterator on `n > 0` copies of the same entity list yields
exactly the list's length.  (The default fuel strictly dominates the
iteration count.) -/
theorem tupleCount_replicate (n : Nat) (l : List Nat) (hn : 0 < n) :
    tupleCount (List.replicate n l) = l.length := by
  unfold tupleCount
  refine tupleCountFuel_replicate l _ n hn ?_
  rw [List.map_replicate, List.sum_replicate, smul_eq_mul]
  have := Nat.le_mul_of_pos_left l.length hn
  omega

/-- A short-circuit traversal whose steps can only ever produce one value
yields a replicated list. -/
theorem mapMOpt_const {A B : Type} (g : A → Option B) (c : B)
    (hc : ∀ x y, g x = some y → y = c) :
    ∀ (l : List A) (ys : List B), mapMOpt g l = some ys →
      ys = List.replicate l.length c := by
  intro l
  induction l with
  | nil =>
    intro ys h
    simp only [mapMOpt, Option.some.injEq] at h
    rw [← h]
    rfl
  | cons x xs ih =>
    intro ys h
    simp only [mapMOpt] at h
    cases hx : g x with
    | none => rw [hx] at h; exact Option.noConfusion h
    | some y =>
      rw [hx] at h
      cases hrest : mapMOpt g xs with
      | none => rw [hrest] at h; exact Option.noConfusion h
      | some ys' =>
        rw [hrest] at h
        simp only [Option.some.injEq] at h
        rw [← h, List.length_cons, List.replicate_succ, hc x y hx, ih ys' hrest]

/-- Every handle the dispatcher builds carries the same entity list: the
query with the OR of all filtered bitmasks. -/
theorem systemHandles_replicate {cs : ComponentsStorage} {es : BlockVec BitmaskType PAGE}
    {params : List TypeId} {hs : List (List Nat)} {f : BitmaskType}
    (hf : systemFilterMask cs params = some f)
    (hh : systemHandles cs es params = some hs) :
    hs = List.replicate params.length (query_by_bitmask es f) := by
  unfold systemHandles at hh
  rw [hf] at hh
  refine mapMOpt_const _ _ ?_ params hs hh
  intro x y hxy
  cases hbx : cs.bitmask x with
  | none => rw [hbx] at hxy; exact Option.noConfusion hxy
  | some b =>
    cases hlx : lookupA x cs.components with
    | none => rw [hbx, hlx] at hxy; exact Option.noConfusion hxy
    | some col =>
      rw [hbx, hlx] at hxy
      simp only [Option.some.injEq] at hxy
      rw [← hxy]

/-- C5: for a system with `n ≥ 2` filtered (non-unique) parameters, every one
of the `n` access handles is built from the entity list obtained by querying
with the OR of all filtered parameters' bitmasks, so all handles iterate
identical entity lists and the tuple zip yields exactly `|E|` tuples. -/
theorem c5_same_filtered_list_and_zip_length (cs : ComponentsStorage)
    (es : BlockVec BitmaskType PAGE) (params : List TypeId) (hs : List (List Nat))
    (hn : 2 ≤ params.length)
    (hh : systemHandles cs es params = some hs) :
    ∃ f, systemFilterMask cs params = some f ∧
      (∀ l ∈ hs, l = query_by_bitmask es f) ∧
      tupleCount hs = (query_by_bitmask es f).length := by
  have hex : ∃ f, systemFilterMask cs params = some f := by
    unfold systemHandles at hh
    cases hx : systemFilterMask cs params with
    | none => rw [hx] at hh; exact Option.noConfusion hh
    | some f => exact ⟨f, rfl⟩
  obtain ⟨f, hf⟩ := hex
  have hrep := systemHandles_replicate hf hh
  refine ⟨f, hf, ?_, ?_⟩
  · intro l hl
    rw [hrep] at hl
    exact List.eq_of_mem_replicate hl
  · rw [hrep]
    exact tupleCount_replicate params.length _ (by omega)

/-- Witness for C5 at a concrete input: two registered types (bits 0 and 1),
one entity slot holding mask 3, and a system with both filtered
parameters. -/
theorem c5_same_filtered_list_and_zip_length_witness :
    ∃ hs f,
      systemHandles ((ComponentsStorage.empty.register 0 0).register 1 1)
          ((BlockVec.new : BlockVec BitmaskType PAGE).set 3 0) [0, 1] = some hs ∧
      systemFilterMask ((ComponentsStorage.empty.register 0 0).register 1 1) [0, 1]
          = some f ∧
      (∀ l ∈ hs, l = query_by_bitmask
        ((BlockVec.new : BlockVec BitmaskType PAGE).set 3 0) f) ∧
      tupleCount hs = (query_by_bitmask
        ((BlockVec.new : BlockVec BitmaskType PAGE).set 3 0) f).length := by
  have hsome : (systemHandles ((ComponentsStorage.empty.register 0 0).register 1 1)
      ((BlockVec.new : BlockVec BitmaskType PAGE).set 3 0) [0, 1]).isSome := by decide
  obtain ⟨hs, hh⟩ := Option.isSome_iff_exists.mp hsome
  obtain ⟨f, hf, hall, hlen⟩ := c5_same_filtered_list_and_zip_length
    ((ComponentsStorage.empty.register 0 0).register 1 1)
    ((BlockVec.new : BlockVec BitmaskType PAGE).set 3 0) [0, 1] hs (by decide) hh
  exact ⟨hs, f, hh, hf, hall, hlen⟩

/-- The `&=` polling fold equals the conjunction of all flags. -/
theorem pollAll_foldl (l : List Bool) :
    ∀ a : Bool, l.foldl (fun acc f => acc && f) a = (a && l.all id) := by
  induction l with
  | nil => intro a; simp
  | cons x xs ih =>
    intro a
    simp only [List.foldl_cons, List.all_cons, ih (a && x), Bool.and_assoc, id]

/-- One `mark_as_finish` never clears another token's flag. -/
theorem markAsFinish_mono {store : List Bool} {i : Nat} (j : Nat)
    (h : store.getD i false = true) :
    (markAsFinish store j).getD i false = true := by
  unfold markAsFinish
  rw [List.getD_eq_getElem?_getD] at h ⊢
  by_cases hij : j = i
  · subst hij
    have hlt : j < store.length := by
      by_contra hcon
      rw [List.getElem?_eq_none (by omega)] at h
      simp at h
    rw [List.getElem?_set_eq_of_lt _ hlt]
    rfl
  · rw [List.getElem?_set_ne hij]
    exact h

/-- C9: completion-token wait is sound and idempotent.  First conjunct: one
polling pass of `wait` succeeds exactly when every token's flag is set (so
`wait` returns only if every token has been signalled at the observed
snapshot).  Second: signalling is permanent — `mark_as_finish` operations
never revert a finished token.  Third: waiting on already-signalled tokens
returns on the very first polling iteration, before any sleep. -/
theorem c9_wait_sound_permanent_idempotent :
    (∀ flags : List Bool, pollAll flags = true ↔ ∀ f ∈ flags, f = true) ∧
    (∀ (store : List Bool) (ops : List Nat) (i : Nat),
      store.getD i false = true → (applyMarks store ops).getD i false = true) ∧
    (∀ (s : List Bool) (snaps : List (List Bool)),
      (∀ f ∈ s, f = true) → waitFirstReturn (s :: snaps) = some 0) := by
  refine ⟨?_, ?_, ?_⟩
  · intro flags
    unfold pollAll
    rw [pollAll_foldl flags true, Bool.true_and, List.all_eq_true]
    simp only [id]
  · intro store ops
    induction ops generalizing store with
    | nil => intro i h; exact h
    | cons j rest ih =>
      intro i h
      exact ih (markAsFinish store j) i (markAsFinish_mono j h)
  · intro s snaps hall
    have hpoll : pollAll s = true := by
      unfold pollAll
      rw [pollAll_foldl s true, Bool.true_and, List.all_eq_true]
      simpa only [id] using hall
    unfold waitFirstReturn
    rw [List.findIdx?_cons]
    simp [hpoll]

/-- Witness for C9 at concrete inputs: a two-token tuple with both flags set
polls true; marking token 1 keeps token 0 finished; a wait whose first
snapshot has all flags set returns at iteration 0. -/
theorem c9_wait_sound_permanent_idempotent_witness :
    pollAll [true, true] = true ∧
      (applyMarks [true] [1]).getD 0 false = true ∧
      waitFirstReturn [[true, true]] = some 0 :=
  ⟨(c9_wait_sound_permanent_idempotent.1 [true, true]).mpr (by decide),
    c9_wait_sound_permanent_idempotent.2.1 [true] [1] 0 (by decide),
    c9_wait_sound_permanent_idempotent.2.2 [true, true] [] (by decide)⟩

end Crystal
